import Mathlib

/-!
Verification of the airway-particle connectivity filter and of the
generation-labeling parameter-file parsers of the ChestImagingPlatform
repository, shallowly embedded from

  * src/Common/cipAirwayParticleConnectedComponentFilter.cxx
  * src/CommandLineTools/LabelAirwayParticlesByGeneration/LabelAirwayParticlesByGeneration.cxx

The C++ doubles are modelled as rationals.  Rational division in Lean is
total with x / 0 = 0; where a division by zero matters (the scale-ratio
check for a pair of zero-scale particles, IEEE 0.0/0.0 = NaN with
NaN > t false for every t) the model agrees with the IEEE comparison
outcome because 0 > t is likewise false for every t that is at least 0;
this is spelled out at the theorems concerned.
-/

/-- A 3-vector of rational coordinates (a double[3] in the source). -/
abbrev V3 : Type := ℚ × ℚ × ℚ

/-- Componentwise difference, as computed for the connecting vector. -/
def vsub (a b : V3) : V3 := (a.1 - b.1, a.2.1 - b.2.1, a.2.2 - b.2.2)

/-- Componentwise negation. -/
def vneg (a : V3) : V3 := (-a.1, -a.2.1, -a.2.2)

/-- Per-particle data read by EvaluateParticleConnectedness: the point
position, the value of the scale field array, and the hevec2 (minor
eigenvector) field array of the internal input poly data. -/
structure Particle where
  pos : V3
  scale : ℚ
  hevec2 : V3

/-- Modelled from the spec: GetVectorMagnitude and GetAngleBetweenVectors
live in the cipParticleConnectedComponentFilter base class, whose source is
not under src/.  Per the spec, mag is the length of the connecting vector
and angle is the absolute angle between a particle minor eigenvector and
that vector, normalized into the 0 to 90 degree range because the
eigenvector sign is arbitrary.  Both are abstracted as parameters here;
the sign-invariance the spec states (the angle and the magnitude do not
change when the connecting vector is negated) appears as an explicit
hypothesis in the theorems that need it. -/
structure GeomOps where
  mag : V3 → ℚ
  angle : V3 → V3 → ℚ

/-- State of cipAirwayParticleConnectedComponentFilter used by
EvaluateParticleConnectedness: the input particles (a total map, mirroring
the unchecked VTK array accesses) and the three thresholds. -/
structure AirwayFilter where
  particle : Nat → Particle
  ScaleRatioThreshold : ℚ
  ParticleDistanceThreshold : ℚ
  ParticleAngleThreshold : ℚ

/-- Scale of particle i: first component of the scale tuple. -/
def scaleOf (f : AirwayFilter) (i : Nat) : ℚ := (f.particle i).scale

/-- maxScale, as computed by the conditional expression
`(scale1>scale2) ? (maxScale = scale1) : (maxScale = scale2)`. -/
def maxScale (f : AirwayFilter) (i j : Nat) : ℚ :=
  if scaleOf f i > scaleOf f j then scaleOf f i else scaleOf f j

/-- The vector connecting the two particles: point of particle i minus
point of particle j. -/
def connectingVec (f : AirwayFilter) (i j : Nat) : V3 :=
  vsub (f.particle i).pos (f.particle j).pos

/-- Angle between the minor eigenvector (hevec2) of particle k and the
vector connecting particles i and j. -/
def thetaOf (g : GeomOps) (f : AirwayFilter) (k i j : Nat) : ℚ :=
  g.angle (f.particle k).hevec2 (connectingVec f i j)

/-- cipAirwayParticleConnectedComponentFilter::EvaluateParticleConnectedness.
The checks run in source order: scale-ratio first, then distance, then the
two eigenvector angles; each failing check returns false immediately.
(The source fetches the points and eigenvectors between the scale check and
the distance check; those are pure reads, kept implicit here.) -/
def EvaluateParticleConnectedness (g : GeomOps) (f : AirwayFilter) (i j : Nat) : Bool :=
  if |scaleOf f i - scaleOf f j| / maxScale f i j > f.ScaleRatioThreshold then
    false
  else if g.mag (connectingVec f i j) > f.ParticleDistanceThreshold then
    false
  else if thetaOf g f i i j > f.ParticleAngleThreshold ∨
          thetaOf g f j i j > f.ParticleAngleThreshold then
    false
  else
    true

/-- Dot product of two 3-vectors; used by the concrete witness geometry. -/
def dotV (a b : V3) : ℚ := a.1 * b.1 + a.2.1 * b.2.1 + a.2.2 * b.2.2

/-- Concrete, computable geometry used to instantiate theorems at concrete
inputs: the squared Euclidean length for mag and the squared dot product
for angle.  Both are invariant under negation of either argument, the only
property of the real (square-root and arc-cosine based) helpers that the
general theorems assume.  On the axis-aligned unit vectors used in the
concrete inputs below, mag coincides with the true Euclidean length and
angle is zero exactly when the true angle is zero degrees. -/
def gW : GeomOps where
  mag v := dotV v v
  angle a v := dotV a v * dotV a v

/-- Particle at the origin with zero scale, eigenvector along x. -/
def pZ0 : Particle := ⟨(0, 0, 0), 0, (1, 0, 0)⟩

/-- Particle at distance 1 on the x axis with zero scale, eigenvector along x. -/
def pZ1 : Particle := ⟨(1, 0, 0), 0, (1, 0, 0)⟩

/-- Filter holding the two zero-scale particles, scale-ratio threshold 1
(the constructor default), distance threshold 2 (the command-line default)
and angle threshold 20. -/
def fZ : AirwayFilter := ⟨fun n => if n = 0 then pZ0 else pZ1, 1, 2, 20⟩

/-- Particle at the origin, scale 1, eigenvector along x. -/
def pD0 : Particle := ⟨(0, 0, 0), 1, (1, 0, 0)⟩

/-- Particle at distance 3 on the x axis, scale 1, eigenvector along x. -/
def pD1 : Particle := ⟨(3, 0, 0), 1, (1, 0, 0)⟩

/-- Filter holding two particles three units apart, with distance
threshold 2 (under the witness geometry the squared distance 9 exceeds
the threshold as well). -/
def fD : AirwayFilter := ⟨fun n => if n = 0 then pD0 else pD1, 1, 2, 20⟩

/-- Unsigned-int base: the comma positions in the parsers of
LabelAirwayParticlesByGeneration.cxx are stored in unsigned int variables,
so std::string::npos is truncated to 2^32 - 1 on assignment and position
arithmetic wraps at 2^32. -/
def U32 : Nat := 4294967296

/-- npos as it appears after truncation to a 32-bit unsigned int. -/
def npos32 : Nat := U32 - 1

/-- Unsigned-int subtraction, wrapping at 2^32. -/
def usub (a b : Nat) : Nat := (a + U32 - b % U32) % U32

/-- Index of the first comma of cs, or none. -/
def commaIdx : List Char → Option Nat
  | [] => none
  | c :: rest => if c = ',' then some 0 else (commaIdx rest).map (· + 1)

/-- std::string::find of a comma from position frm, as stored into an
unsigned int.  The C++ string is the 100000-byte getline buffer (line
content, a NUL terminator, then stale bytes of earlier lines); the model
searches the line content and treats the region from the terminator on as
comma-free.  At every call site modelled here any position read from the
stale region would sit behind the NUL, where atof and the name comparison
stop, so the parsed values are unaffected. -/
def commaFind (cs : List Char) (frm : Nat) : Nat :=
  match commaIdx (cs.drop frm) with
  | some k => frm + k
  | none => npos32

/-- std::string::substr: pos is within the content at every call site
modelled here, and the count is clamped to the remainder exactly as
substr clamps it. -/
def substr (cs : List Char) (pos count : Nat) : List Char := (cs.drop pos).take count

/-- An input text file as seen through istream getline: the content of each
line and whether the final line is terminated by a newline.  Reading a line
sets the stream end-of-file flag exactly when it is the final line of a
file that does not end in a newline, or when nothing is left to read. -/
structure InFile where
  lines : List (List Char)
  lastNewline : Bool

/-- Modelled from the spec: the C library atof and the ChestConventions
name table of cipConventions.h are not under src/.  Per the spec, each row
of a parameter file is keyed by chest-type names resolved to canonical
numeric type codes via a fixed naming-convention table (unknown names
resolve to the undefined code 0, which fails the positivity test of the
emission parser), and numeric fields are read with atof.  Both are
abstracted as parameters, together with the bound returned by
GetNumberOfEnumeratedChestRegions (note: the emission parser really does
compare the TYPE code against the enumerated chest REGION count). -/
structure ParseEnv where
  atof : List Char → ℚ
  chestTypeValueFromName : List Char → Nat
  numberOfEnumeratedChestRegions : Nat

/-- The six per-type values stored by the six setter calls of one accepted
emission-statistics row (SetScaleStandardDeviation,
SetDistanceStandardDeviation, SetAngleStandardDeviation, SetScaleMean,
SetDistanceMean, SetAngleMean). -/
structure EmissionEntry where
  cipType : Nat
  scaleDiffMean : ℚ
  scaleDiffSTD : ℚ
  distanceMean : ℚ
  distanceSTD : ℚ
  angleMean : ℚ
  angleSTD : ℚ

/-- One data row of the emission statistics file, parsed exactly as
SetEmissionProbabilityStatsFromFile does: comma positions tracked in
unsigned ints, the chest type name taken as
substr(0, commaLocNew - commaLocOld + 1) — which RETAINS the trailing
comma — then seven atof fields (the eighth field, numSamples, is read but
unused by the setters). -/
def parseEmissionRow (env : ParseEnv) (cs : List Char) : EmissionEntry :=
  let c1 := commaFind cs 0
  let cipTypeName := substr cs 0 ((c1 + 1) % U32)
  let c2 := commaFind cs ((c1 + 1) % U32)
  let scaleDiffMean := env.atof (substr cs ((c1 + 1) % U32) (usub (usub c2 c1) 1))
  let c3 := commaFind cs ((c2 + 1) % U32)
  let scaleDiffSTD := env.atof (substr cs ((c2 + 1) % U32) (usub (usub c3 c2) 1))
  let c4 := commaFind cs ((c3 + 1) % U32)
  let distanceMean := env.atof (substr cs ((c3 + 1) % U32) (usub (usub c4 c3) 1))
  let c5 := commaFind cs ((c4 + 1) % U32)
  let distanceSTD := env.atof (substr cs ((c4 + 1) % U32) (usub (usub c5 c4) 1))
  let c6 := commaFind cs ((c5 + 1) % U32)
  let angleMean := env.atof (substr cs ((c5 + 1) % U32) (usub (usub c6 c5) 1))
  let c7 := commaFind cs ((c6 + 1) % U32)
  let angleSTD := env.atof (substr cs ((c6 + 1) % U32) (usub (usub c7 c6) 1))
  let c8 := commaFind cs ((c7 + 1) % U32)
  let _numSamples := env.atof (substr cs ((c7 + 1) % U32) (usub (usub c8 c7) 1))
  ⟨env.chestTypeValueFromName cipTypeName,
   scaleDiffMean, scaleDiffSTD, distanceMean, distanceSTD, angleMean, angleSTD⟩

/-- The acceptance test applied to a parsed emission row:
`int(cipType) > 0 && int(cipType) < conventions.GetNumberOfEnumeratedChestRegions()`. -/
def emissionRowAccepted (env : ParseEnv) (cs : List Char) : Prop :=
  0 < (parseEmissionRow env cs).cipType ∧
    (parseEmissionRow env cs).cipType < env.numberOfEnumeratedChestRegions

instance (env : ParseEnv) (cs : List Char) : Decidable (emissionRowAccepted env cs) := by
  unfold emissionRowAccepted
  infer_instance

/-- The do-while read loop of SetEmissionProbabilityStatsFromFile over the
data lines (the header has already been consumed): getline a line; if that
did not set the end-of-file flag, parse it and, when the type code is
accepted, make the six setter calls, otherwise clear keepChecking; loop
while not end-of-file and keepChecking. -/
def emissionLoop (env : ParseEnv) : List (List Char) → Bool → List EmissionEntry
  | [], _ => []
  | l :: rest, lastNL =>
    if rest = [] ∧ lastNL = false then []
    else if 0 < (parseEmissionRow env l).cipType ∧
            (parseEmissionRow env l).cipType < env.numberOfEnumeratedChestRegions then
      parseEmissionRow env l :: emissionLoop env rest lastNL
    else []

/-- SetEmissionProbabilityStatsFromFile: gobble the header line, then run
the read loop; the result is the sequence of populated per-type entries in
order. -/
def SetEmissionProbabilityStatsFromFile (env : ParseEnv) (file : InFile) : List EmissionEntry :=
  emissionLoop env (file.lines.drop 1) file.lastNewline

/-- One parsed data row of the transition probability stats file:
fromTypeName (substr(0, commaLocNew - commaLocOld), no trailing comma),
toTypeName, then five atof fields ending with numSamples. -/
structure StatsRow where
  fromType : Nat
  toType : Nat
  scaleDiffMean : ℚ
  scaleDiffSTD : ℚ
  angleMean : ℚ
  angleSTD : ℚ
  numSamples : ℚ

def parseStatsRow (env : ParseEnv) (cs : List Char) : StatsRow :=
  let c1 := commaFind cs 0
  let fromTypeName := substr cs 0 c1
  let c2 := commaFind cs ((c1 + 1) % U32)
  let toTypeName := substr cs ((c1 + 1) % U32) (usub (usub c2 c1) 1)
  let c3 := commaFind cs ((c2 + 1) % U32)
  let scaleDiffMean := env.atof (substr cs ((c2 + 1) % U32) (usub (usub c3 c2) 1))
  let c4 := commaFind cs ((c3 + 1) % U32)
  let scaleDiffSTD := env.atof (substr cs ((c3 + 1) % U32) (usub (usub c4 c3) 1))
  let c5 := commaFind cs ((c4 + 1) % U32)
  let angleMean := env.atof (substr cs ((c4 + 1) % U32) (usub (usub c5 c4) 1))
  let c6 := commaFind cs ((c5 + 1) % U32)
  let angleSTD := env.atof (substr cs ((c5 + 1) % U32) (usub (usub c6 c5) 1))
  let c7 := commaFind cs ((c6 + 1) % U32)
  let numSamples := env.atof (substr cs ((c6 + 1) % U32) (usub (usub c7 c6) 1))
  ⟨env.chestTypeValueFromName fromTypeName, env.chestTypeValueFromName toTypeName,
   scaleDiffMean, scaleDiffSTD, angleMean, angleSTD, numSamples⟩

/-- The arguments of one call to
SetNormalTransitionProbabilityMeansAndVariances: the row means together
with the squares of the row standard deviations as variances. -/
structure StatsEntry where
  fromType : Nat
  toType : Nat
  scaleDiffMean : ℚ
  scaleDiffVar : ℚ
  angleMean : ℚ
  angleVar : ℚ

def statsCall (r : StatsRow) : StatsEntry :=
  ⟨r.fromType, r.toType, r.scaleDiffMean, r.scaleDiffSTD * r.scaleDiffSTD,
   r.angleMean, r.angleSTD * r.angleSTD⟩

/-- The do-while read loop of SetTransitionProbabilityStatsFromFile over
the data lines: unlike the emission loop there is no keepChecking — every
line read without setting the end-of-file flag is parsed, and the setter is
called exactly when numSamples > 10. -/
def statsLoop (env : ParseEnv) : List (List Char) → Bool → List StatsEntry
  | [], _ => []
  | l :: rest, lastNL =>
    if rest = [] ∧ lastNL = false then []
    else
      (if (parseStatsRow env l).numSamples > 10 then [statsCall (parseStatsRow env l)] else []) ++
        statsLoop env rest lastNL

/-- SetTransitionProbabilityStatsFromFile: gobble the header, then run the
read loop; the result is the sequence of setter calls in order. -/
def SetTransitionProbabilityStatsFromFile (env : ParseEnv) (file : InFile) : List StatsEntry :=
  statsLoop env (file.lines.drop 1) file.lastNewline

/-- One call to SetTransitionProbability(fromType, toType, prob). -/
structure TransCall where
  fromType : Nat
  toType : Nat
  prob : ℚ

/-- The tokens for columns 1..10 of a transition-probabilities row, given
the position old of the previous comma: find the next comma from
(old + 1) and take the characters strictly between the commas. -/
def transTokensAux (cs : List Char) (old : Nat) : Nat → List (List Char)
  | 0 => []
  | k + 1 =>
    substr cs ((old + 1) % U32) (usub (usub (commaFind cs ((old + 1) % U32)) old) 1) ::
      transTokensAux cs (commaFind cs ((old + 1) % U32)) k

/-- The eleven comma-separated tokens of one row of the transition
probabilities file, extracted as the inner for-loop does: the column-0
token via substr(0, commaLocNew - commaLocOld + 1) — keeping the trailing
comma, which is harmless because atof stops at it — and the rest as
between-comma substrings. -/
def transTokens (cs : List Char) : List (List Char) :=
  substr cs 0 ((commaFind cs 0 + 1) % U32) :: transTokensAux cs (commaFind cs 0) 10

/-- The token the extraction yields for grid column j of a row. -/
def transToken (cs : List Char) (j : Nat) : List Char := (transTokens cs).getD j []

/-- The eleven SetTransitionProbability calls made for one line: toType is
j + 38 for j = 0..10 and the probability is atof of the j-th token. -/
def transRowCalls (env : ParseEnv) (fromType : Nat) (cs : List Char) : List TransCall :=
  (List.range 11).map (fun j => ⟨fromType, j + 38, env.atof (transToken cs j)⟩)

/-- The outer for-loop of SetTransitionProbabilitiesFromFile, written with
the number k of remaining iterations as the recursion fuel: iteration for
row index i (fromType = i + 38) reads the next line with getline — an
exhausted stream yields the empty line — and emits the eleven calls of
that row.  There is no end-of-file check and no header: the file is read
as a fixed 11-row grid. -/
def transReadAux (env : ParseEnv) (fromType : Nat) : Nat → List (List Char) → List TransCall
  | 0, _ => []
  | k + 1, lines =>
    transRowCalls env fromType (lines.headD []) ++
      transReadAux env (fromType + 1) k lines.tail

def SetTransitionProbabilitiesFromFile (env : ParseEnv) (file : InFile) : List TransCall :=
  transReadAux env 38 11 file.lines

/-- Modelled from the spec: the filter class holding the probability store
is not under src/.  SetTransitionProbability records the value for the
(fromType, toType) pair, a later write overwriting an earlier one. -/
def applyTransCall (s : Nat × Nat → ℚ) (c : TransCall) : Nat × Nat → ℚ :=
  fun p => if p = (c.fromType, c.toType) then c.prob else s p

def transStoreOfCalls (calls : List TransCall) : Nat × Nat → ℚ :=
  calls.foldl applyTransCall (fun _ => 0)

/-- Modelled from the spec: in direct-probability mode transitionLikelihood
returns the stored probability of the pair. -/
def GetTransitionProbability (s : Nat × Nat → ℚ) (a b : Nat) : ℚ := s (a, b)

/-- The confusion matrix as allocated by the diagnostic branch of main: ten
rows of ten zeroes (the loops building it run i and j from 0 to 9). -/
def confusionMatrixInit : List (List Nat) := List.replicate 10 (List.replicate 10 0)

/-- One increment confusionMatrix[r][c] += 1.  List.set is a no-op outside
the bounds, whereas the C++ vector operator[] would be out of bounds there
(undefined behavior), so the counting theorems below restrict to label
pairs whose indices are in range. -/
def bumpCell (m : List (List Nat)) (r c : Nat) : List (List Nat) :=
  m.set r ((m.getD r []).set c ((m.getD r []).getD c 0 + 1))

/-- The confusion matrix accumulated over the particles, given for each
particle the pair (input ChestType, output ChestType); the indices are
inType - 38 and outType - 38. -/
def confusionMatrix (pairs : List (Nat × Nat)) : List (List Nat) :=
  pairs.foldl (fun m p => bumpCell m (p.1 - 38) (p.2 - 38)) confusionMatrixInit

/-- The matrix as printed: the print loops run i and j from 0 to 9 and
print confusionMatrix[i][j], one row per line. -/
def printedConfusion (pairs : List (Nat × Nat)) : List (List Nat) :=
  (List.range 10).map (fun i => (List.range 10).map (fun j =>
    ((confusionMatrix pairs).getD i []).getD j 0))

/-- Shape invariant of the confusion matrix: ten rows, each of ten cells. -/
def goodGrid (m : List (List Nat)) : Prop :=
  m.length = 10 ∧ ∀ idx < 10, (m.getD idx []).length = 10

/-- Concrete parse environment used to instantiate the parser theorems:
atof returns the token length (any computable stand-in works, the theorems
being parametric in atof) and the name table resolves the emission-parser
token of name A — which retains the trailing comma — and the stats-parser
tokens B and C; every other name resolves to the undefined code 0. -/
def envW : ParseEnv where
  atof cs := (cs.length : ℚ)
  chestTypeValueFromName cs :=
    if cs = "A,".toList then 40
    else if cs = "B".toList then 41
    else if cs = "C".toList then 42
    else 0
  numberOfEnumeratedChestRegions := 49

/-- Header line of the concrete files. -/
def hdrW : List Char := "header".toList

/-- A well-formed emission row whose name resolves to code 40. -/
def rowA : List Char := "A,1,2,3,4,5,6,7".toList

/-- Another well-formed emission row with the same name. -/
def rowB : List Char := "A,9,8,7,6,5,4,3".toList

/-- An emission row whose name resolves to the undefined code 0. -/
def rowX : List Char := "X,1,2,3,4,5,6,7".toList

/-- A stats row with unrecognized from/to names and numSamples above the
threshold (under envW.atof the last token of length 11 reads as 11). -/
def rowZ : List Char := "Z,Q,1,2,3,4,12345678901".toList

/-- A recognized stats row (from B to C) with numSamples above the
threshold. -/
def rowBC : List Char := "B,C,11,222,33,4444,12345678901".toList

theorem boolEq_of_iff (a b : Bool) (h : a = true ↔ b = true) : a = b := by
  cases a <;> cases b <;> simp_all

/-- Connectedness holds exactly when all three criteria pass. -/
theorem evalConnected_spec (g : GeomOps) (f : AirwayFilter) (i j : Nat) :
    EvaluateParticleConnectedness g f i j = true ↔
      (|scaleOf f i - scaleOf f j| / maxScale f i j ≤ f.ScaleRatioThreshold ∧
       g.mag (connectingVec f i j) ≤ f.ParticleDistanceThreshold ∧
       thetaOf g f i i j ≤ f.ParticleAngleThreshold ∧
       thetaOf g f j i j ≤ f.ParticleAngleThreshold) := by
  unfold EvaluateParticleConnectedness
  split
  · rename_i h1
    exact iff_of_false (by simp) (fun hp => absurd h1 (not_lt.mpr hp.1))
  · rename_i h1
    split
    · rename_i h2
      exact iff_of_false (by simp) (fun hp => absurd h2 (not_lt.mpr hp.2.1))
    · rename_i h2
      split
      · rename_i h3
        refine iff_of_false (by simp) (fun hp => ?_)
        rcases h3 with h3 | h3
        · exact absurd h3 (not_lt.mpr hp.2.2.1)
        · exact absurd h3 (not_lt.mpr hp.2.2.2)
      · rename_i h3
        push_neg at h1 h2 h3
        exact iff_of_true rfl ⟨h1, h2, h3.1, h3.2⟩

theorem maxScale_comm (f : AirwayFilter) (i j : Nat) :
    maxScale f i j = maxScale f j i := by
  unfold maxScale
  rcases lt_trichotomy (scaleOf f i) (scaleOf f j) with h | h | h
  · rw [if_neg (not_lt.mpr h.le), if_pos h]
  · simp [h]
  · rw [if_pos h, if_neg (not_lt.mpr h.le)]

theorem connectingVec_swap (f : AirwayFilter) (i j : Nat) :
    connectingVec f j i = vneg (connectingVec f i j) := by
  unfold connectingVec vsub vneg
  simp [neg_sub]

/-- One direction of the symmetry of the passing conditions. -/
theorem connCond_swap (g : GeomOps) (f : AirwayFilter)
    (hmag : ∀ v, g.mag (vneg v) = g.mag v)
    (hangle : ∀ a v, g.angle a (vneg v) = g.angle a v) (i j : Nat)
    (h : |scaleOf f i - scaleOf f j| / maxScale f i j ≤ f.ScaleRatioThreshold ∧
         g.mag (connectingVec f i j) ≤ f.ParticleDistanceThreshold ∧
         thetaOf g f i i j ≤ f.ParticleAngleThreshold ∧
         thetaOf g f j i j ≤ f.ParticleAngleThreshold) :
    |scaleOf f j - scaleOf f i| / maxScale f j i ≤ f.ScaleRatioThreshold ∧
      g.mag (connectingVec f j i) ≤ f.ParticleDistanceThreshold ∧
      thetaOf g f j j i ≤ f.ParticleAngleThreshold ∧
      thetaOf g f i j i ≤ f.ParticleAngleThreshold := by
  obtain ⟨h1, h2, h3, h4⟩ := h
  refine ⟨?_, ?_, ?_, ?_⟩
  · rwa [abs_sub_comm, maxScale_comm]
  · rwa [connectingVec_swap, hmag]
  · unfold thetaOf
    rw [connectingVec_swap, hangle]
    exact h4
  · unfold thetaOf
    rw [connectingVec_swap, hangle]
    exact h3

/-- C1: EvaluateParticleConnectedness returns true if and only if the
scale-ratio criterion, the distance criterion and both eigenvector-angle
criteria all pass (checks sequenced in that order in the definition, each
failing check returning false at once). -/
theorem evaluateParticleConnectedness_true_iff (g : GeomOps) (f : AirwayFilter) (i j : Nat) :
    EvaluateParticleConnectedness g f i j = true ↔
      (|scaleOf f i - scaleOf f j| / maxScale f i j ≤ f.ScaleRatioThreshold ∧
       g.mag (connectingVec f i j) ≤ f.ParticleDistanceThreshold ∧
       thetaOf g f i i j ≤ f.ParticleAngleThreshold ∧
       thetaOf g f j i j ≤ f.ParticleAngleThreshold) :=
  evalConnected_spec g f i j

/-- C2: the connectivity predicate is symmetric, for every geometry whose
magnitude and angle are invariant under negating the connecting vector
(which the spec states of the absolute-angle and length helpers). -/
theorem evaluateParticleConnectedness_symm (g : GeomOps) (f : AirwayFilter)
    (hmag : ∀ v, g.mag (vneg v) = g.mag v)
    (hangle : ∀ a v, g.angle a (vneg v) = g.angle a v) (i j : Nat) :
    EvaluateParticleConnectedness g f i j = EvaluateParticleConnectedness g f j i := by
  apply boolEq_of_iff
  rw [evalConnected_spec, evalConnected_spec]
  exact ⟨fun h => connCond_swap g f hmag hangle i j h,
         fun h => connCond_swap g f hmag hangle j i h⟩

theorem gW_mag_even : ∀ v, gW.mag (vneg v) = gW.mag v := by
  intro v
  simp only [gW, vneg, dotV]
  ring

theorem gW_angle_even : ∀ a v, gW.angle a (vneg v) = gW.angle a v := by
  intro a v
  simp only [gW, vneg, dotV]
  ring

theorem evaluateParticleConnectedness_symm_witness :
    EvaluateParticleConnectedness gW fD 0 1 = EvaluateParticleConnectedness gW fD 1 0 :=
  evaluateParticleConnectedness_symm gW fD gW_mag_even gW_angle_even 0 1

/-- C3: a pair farther apart than the distance threshold is never
connected, whatever the scales and angles: either the scale check already
rejected, or control reaches the distance check, which rejects. -/
theorem evaluateParticleConnectedness_far_false (g : GeomOps) (f : AirwayFilter) (i j : Nat)
    (h : g.mag (connectingVec f i j) > f.ParticleDistanceThreshold) :
    EvaluateParticleConnectedness g f i j = false := by
  unfold EvaluateParticleConnectedness
  split
  · rfl
  · rfl

/-- Under the witness geometry the two particles of fD are squared-distance
9 apart, beyond the distance threshold 2. -/
theorem fD_far : gW.mag (connectingVec fD 0 1) > fD.ParticleDistanceThreshold := by
  norm_num [gW, dotV, connectingVec, vsub, fD, pD0, pD1]

theorem evaluateParticleConnectedness_far_false_witness :
    EvaluateParticleConnectedness gW fD 0 1 = false :=
  evaluateParticleConnectedness_far_false gW fD 0 1 fD_far

/-- C4: evaluation of the code at the failing input.  Both particles have
scale zero, so the C++ scale check divides 0.0 by 0.0, producing NaN;
NaN > ScaleRatioThreshold is false, so the check passes (the model mirrors
this: 0 / 0 = 0 and 0 > 1 is false).  The particles are one unit apart
(below the distance threshold 2) with eigenvectors parallel to the
connecting vector (angle 0, below the angle threshold), so the pair is
reported CONNECTED, contradicting the claim that a zero-max-scale pair is
always treated as not connected. -/
theorem evaluateParticleConnectedness_zeroScale_connected :
    (fZ.particle 0).scale = 0 ∧ (fZ.particle 1).scale = 0 ∧
      EvaluateParticleConnectedness gW fZ 0 1 = true := by
  refine ⟨rfl, rfl, ?_⟩
  norm_num [EvaluateParticleConnectedness, scaleOf, maxScale, connectingVec, thetaOf,
    gW, dotV, fZ, pZ0, pZ1, vsub]

theorem emissionLoop_cons_eq (env : ParseEnv) (l : List Char) (rest : List (List Char))
    (lastNL : Bool) :
    emissionLoop env (l :: rest) lastNL =
      if rest = [] ∧ lastNL = false then []
      else if 0 < (parseEmissionRow env l).cipType ∧
              (parseEmissionRow env l).cipType < env.numberOfEnumeratedChestRegions then
        parseEmissionRow env l :: emissionLoop env rest lastNL
      else [] := rfl

theorem emissionLoop_cons_ok (env : ParseEnv) (l : List Char) (rest : List (List Char))
    (h : emissionRowAccepted env l) :
    emissionLoop env (l :: rest) true =
      parseEmissionRow env l :: emissionLoop env rest true := by
  unfold emissionRowAccepted at h
  simp only [emissionLoop]
  have h1 : ¬(rest = [] ∧ true = false) := by simp
  rw [if_neg h1, if_pos h]

theorem emissionLoop_cons_bad (env : ParseEnv) (l : List Char) (rest : List (List Char))
    (h : ¬ emissionRowAccepted env l) :
    emissionLoop env (l :: rest) true = [] := by
  unfold emissionRowAccepted at h
  simp only [emissionLoop]
  have h1 : ¬(rest = [] ∧ true = false) := by simp
  rw [if_neg h1, if_neg h]

theorem emissionLoop_all_ok (env : ParseEnv) :
    ∀ rows : List (List Char), (∀ l ∈ rows, emissionRowAccepted env l) →
      emissionLoop env rows true = rows.map (parseEmissionRow env) := by
  intro rows
  induction rows with
  | nil => intro _; rfl
  | cons l ls ih =>
    intro hv
    rw [emissionLoop_cons_ok env l ls (hv l (List.mem_cons_self l ls)),
        ih (fun x hx => hv x (List.mem_cons_of_mem l hx)), List.map_cons]

theorem emissionLoop_good_then_bad (env : ParseEnv) (bad : List Char) (rest : List (List Char))
    (hb : ¬ emissionRowAccepted env bad) :
    ∀ good : List (List Char), (∀ l ∈ good, emissionRowAccepted env l) →
      emissionLoop env (good ++ bad :: rest) true = good.map (parseEmissionRow env) := by
  intro good
  induction good with
  | nil =>
    intro _
    simp only [List.nil_append, List.map_nil]
    exact emissionLoop_cons_bad env bad rest hb
  | cons x xs ih =>
    intro hg
    rw [List.cons_append, emissionLoop_cons_ok env x _ (hg x (List.mem_cons_self x xs)),
        ih (fun l hl => hg l (List.mem_cons_of_mem x hl)), List.map_cons]

/-- C5: an emission statistics file (header plus data rows, ending in a
newline) whose rows all carry accepted type codes populates exactly one
entry of six setter values per row — K rows give K entries; a file whose
4th data row is not accepted populates exactly the first 3 entries and no
later row takes effect. -/
theorem emission_file_population (env : ParseEnv) (hdr : List Char) :
    (∀ rows : List (List Char), (∀ l ∈ rows, emissionRowAccepted env l) →
       SetEmissionProbabilityStatsFromFile env ⟨hdr :: rows, true⟩ =
         rows.map (parseEmissionRow env) ∧
       (SetEmissionProbabilityStatsFromFile env ⟨hdr :: rows, true⟩).length = rows.length) ∧
    (∀ (a b c d : List Char) (rest : List (List Char)),
       emissionRowAccepted env a → emissionRowAccepted env b → emissionRowAccepted env c →
       ¬ emissionRowAccepted env d →
       SetEmissionProbabilityStatsFromFile env ⟨hdr :: a :: b :: c :: d :: rest, true⟩ =
         [parseEmissionRow env a, parseEmissionRow env b, parseEmissionRow env c]) := by
  constructor
  · intro rows hv
    have h : SetEmissionProbabilityStatsFromFile env ⟨hdr :: rows, true⟩ =
        rows.map (parseEmissionRow env) := emissionLoop_all_ok env rows hv
    exact ⟨h, by rw [h, List.length_map]⟩
  · intro a b c d rest ha hb hc hd
    show emissionLoop env (a :: b :: c :: d :: rest) true = _
    rw [emissionLoop_cons_ok env a _ ha, emissionLoop_cons_ok env b _ hb,
        emissionLoop_cons_ok env c _ hc, emissionLoop_cons_bad env d rest hd]

theorem rowA_accepted : emissionRowAccepted envW rowA := by decide

theorem rowB_accepted : emissionRowAccepted envW rowB := by decide

theorem rowX_rejected : ¬ emissionRowAccepted envW rowX := by decide

theorem emission_file_population_witness :
    SetEmissionProbabilityStatsFromFile envW ⟨hdrW :: [rowA, rowB], true⟩ =
      [rowA, rowB].map (parseEmissionRow envW) ∧
    SetEmissionProbabilityStatsFromFile envW ⟨hdrW :: rowA :: rowB :: rowA :: rowX :: [], true⟩ =
      [parseEmissionRow envW rowA, parseEmissionRow envW rowB, parseEmissionRow envW rowA] :=
  ⟨((emission_file_population envW hdrW).1 [rowA, rowB] (by decide)).1,
   (emission_file_population envW hdrW).2 rowA rowB rowA rowX [] rowA_accepted
     rowB_accepted rowA_accepted rowX_rejected⟩

/-- C10: a well-formed final data row that is not terminated by a newline
is silently discarded — getline of that row sets the end-of-file flag, the
loop body processes a line only when the flag is unset, so the file behaves
exactly like the file without that row. -/
theorem emission_unterminated_last_row_discarded (env : ParseEnv) (hdr l : List Char)
    (rows : List (List Char)) :
    SetEmissionProbabilityStatsFromFile env ⟨hdr :: (rows ++ [l]), false⟩ =
      SetEmissionProbabilityStatsFromFile env ⟨hdr :: rows, true⟩ := by
  show emissionLoop env (rows ++ [l]) false = emissionLoop env rows true
  induction rows with
  | nil => rfl
  | cons r rs ih =>
    rw [List.cons_append, emissionLoop_cons_eq, emissionLoop_cons_eq]
    have h1 : ¬(rs ++ [l] = [] ∧ (false : Bool) = false) := by simp
    have h2 : ¬(rs = [] ∧ (true : Bool) = false) := by simp
    rw [if_neg h1, if_neg h2]
    by_cases h : 0 < (parseEmissionRow env r).cipType ∧
        (parseEmissionRow env r).cipType < env.numberOfEnumeratedChestRegions
    · rw [if_pos h, if_pos h, ih]
    · rw [if_neg h, if_neg h]

theorem statsLoop_cons (env : ParseEnv) (l : List Char) (rest : List (List Char)) :
    statsLoop env (l :: rest) true =
      (if (parseStatsRow env l).numSamples > 10 then [statsCall (parseStatsRow env l)]
       else []) ++ statsLoop env rest true := by
  simp only [statsLoop]
  have h1 : ¬(rest = [] ∧ true = false) := by simp
  rw [if_neg h1]

theorem statsLoop_append (env : ParseEnv) (xs ys : List (List Char)) :
    statsLoop env (xs ++ ys) true = statsLoop env xs true ++ statsLoop env ys true := by
  induction xs with
  | nil => rfl
  | cons x xs ih =>
    rw [List.cons_append, statsLoop_cons, statsLoop_cons, ih, List.append_assoc]

/-- C6 amended: only the emission-statistics parser stops at an
unrecognized row (keeping the already-populated entries, without aborting
the run); the transition-probability-stats parser processes every
newline-terminated row to the end of the file — a malformed or unrecognized
row does not prevent later rows from taking effect, rows being filtered
only by the numSamples > 10 test. -/
theorem parse_truncation_behavior :
    (∀ (env : ParseEnv) (hdr m : List Char) (pre post : List (List Char)),
       SetTransitionProbabilityStatsFromFile env ⟨hdr :: (pre ++ m :: post), true⟩ =
         statsLoop env pre true ++
           ((if (parseStatsRow env m).numSamples > 10 then [statsCall (parseStatsRow env m)]
             else []) ++ statsLoop env post true)) ∧
    (∀ (env : ParseEnv) (hdr bad : List Char) (good rest : List (List Char)),
       (∀ l ∈ good, emissionRowAccepted env l) → ¬ emissionRowAccepted env bad →
       SetEmissionProbabilityStatsFromFile env ⟨hdr :: (good ++ bad :: rest), true⟩ =
         good.map (parseEmissionRow env)) := by
  constructor
  · intro env hdr m pre post
    show statsLoop env (pre ++ m :: post) true = _
    rw [statsLoop_append, statsLoop_cons]
  · intro env hdr bad good rest hg hb
    exact emissionLoop_good_then_bad env bad rest hb good hg

theorem parse_truncation_behavior_witness :
    SetTransitionProbabilityStatsFromFile envW ⟨hdrW :: ([rowBC] ++ rowZ :: [rowBC]), true⟩ =
      statsLoop envW [rowBC] true ++
        ((if (parseStatsRow envW rowZ).numSamples > 10 then [statsCall (parseStatsRow envW rowZ)]
          else []) ++ statsLoop envW [rowBC] true) ∧
    SetEmissionProbabilityStatsFromFile envW ⟨hdrW :: ([rowA] ++ rowX :: [rowB]), true⟩ =
      [rowA].map (parseEmissionRow envW) :=
  ⟨parse_truncation_behavior.1 envW hdrW rowZ [rowBC] [rowBC],
   parse_truncation_behavior.2 envW hdrW rowX [rowA] [rowB] (by decide) rowX_rejected⟩

/-- C6 counterexample: in the transition-probability-stats parser an
unrecognized row does NOT terminate parsing.  The file holds a header, a
row with unrecognized type names (stored with the undefined codes 0, 0,
since the parser never validates them) and then a recognized row from B
(41) to C (42); the later row still takes effect, refuting the claim that
no row after a malformed one does. -/
theorem stats_rows_after_bad_row_take_effect :
    (SetTransitionProbabilityStatsFromFile envW ⟨[hdrW, rowZ, rowBC], true⟩).map
        (fun e => (e.fromType, e.toType)) = [(0, 0), (41, 42)] := by decide

/-- C8: the transition-probability-stats rows of a newline-terminated file
take effect exactly when the parsed numSamples exceeds 10, each accepted
row producing exactly one SetNormalTransitionProbabilityMeansAndVariances
call carrying the row means and the squares of the row standard deviations
as variances; rows with numSamples at most 10 are skipped without error. -/
theorem stats_sampleCount_filter (env : ParseEnv) (hdr : List Char)
    (rows : List (List Char)) :
    SetTransitionProbabilityStatsFromFile env ⟨hdr :: rows, true⟩ =
      ((rows.map (parseStatsRow env)).filter
        (fun r => decide (r.numSamples > 10))).map statsCall := by
  show statsLoop env rows true = _
  induction rows with
  | nil => rfl
  | cons l ls ih =>
    rw [statsLoop_cons, ih, List.map_cons, List.filter_cons]
    by_cases h : (parseStatsRow env l).numSamples > 10
    · simp [h]
    · simp [h]

theorem transRowCalls_length (env : ParseEnv) (t : Nat) (cs : List Char) :
    (transRowCalls env t cs).length = 11 := by
  simp [transRowCalls]

theorem transReadAux_length (env : ParseEnv) :
    ∀ (k t : Nat) (lines : List (List Char)), (transReadAux env t k lines).length = k * 11 := by
  intro k
  induction k with
  | zero => intro t lines; rfl
  | succ k ih =>
    intro t lines
    simp only [transReadAux, List.length_append, transRowCalls_length, ih]
    omega

theorem getD_zero_headD (lines : List (List Char)) : lines.getD 0 [] = lines.headD [] := by
  cases lines <;> rfl

theorem getD_succ_tail (lines : List (List Char)) (k : Nat) :
    lines.tail.getD k [] = lines.getD (k + 1) [] := by
  cases lines <;> rfl

theorem transReadAux_getElem (env : ParseEnv) :
    ∀ (k t : Nat) (lines : List (List Char)) (i j : Nat), i < k → j < 11 →
      (transReadAux env t k lines)[i * 11 + j]? =
        some ⟨t + i, j + 38, env.atof (transToken (lines.getD i []) j)⟩ := by
  intro k
  induction k with
  | zero => intro t lines i j hi _; exact absurd hi (Nat.not_lt_zero i)
  | succ k ih =>
    intro t lines i j hi hj
    cases i with
    | zero =>
      simp only [transReadAux]
      rw [List.getElem?_append_left (by rw [transRowCalls_length]; omega)]
      have hidx : 0 * 11 + j = j := by omega
      rw [hidx]
      simp only [transRowCalls, List.getElem?_map, List.getElem?_range hj, Option.map_some']
      cases lines <;> simp
    | succ i =>
      simp only [transReadAux]
      rw [List.getElem?_append_right (by rw [transRowCalls_length]; omega)]
      have hidx : (i + 1) * 11 + j - (transRowCalls env t (lines.headD [])).length =
          i * 11 + j := by
        rw [transRowCalls_length]; omega
      rw [hidx, ih (t + 1) lines.tail i j (by omega) hj, getD_succ_tail]
      have harith : t + 1 + i = t + (i + 1) := by omega
      rw [harith]

theorem transReadAux_mem (env : ParseEnv) :
    ∀ (k t : Nat) (lines : List (List Char)) (c : TransCall), c ∈ transReadAux env t k lines →
      ∃ i j, i < k ∧ j < 11 ∧
        c = ⟨t + i, j + 38, env.atof (transToken (lines.getD i []) j)⟩ := by
  intro k
  induction k with
  | zero => intro t lines c hc; exact absurd hc (List.not_mem_nil c)
  | succ k ih =>
    intro t lines c hc
    simp only [transReadAux, List.mem_append] at hc
    rcases hc with hc | hc
    · simp only [transRowCalls, List.mem_map, List.mem_range] at hc
      obtain ⟨j, hj, rfl⟩ := hc
      exact ⟨0, j, Nat.succ_pos k, hj, by cases lines <;> simp⟩
    · obtain ⟨i, j, hik, hj, rfl⟩ := ih (t + 1) lines.tail c hc
      refine ⟨i + 1, j, by omega, hj, ?_⟩
      have harith : t + 1 + i = t + (i + 1) := by omega
      rw [harith, ← getD_succ_tail]

theorem transStore_skip (a b : Nat) :
    ∀ (cs : List TransCall) (s : Nat × Nat → ℚ),
      (∀ c ∈ cs, ¬(c.fromType = a ∧ c.toType = b)) →
      cs.foldl applyTransCall s (a, b) = s (a, b) := by
  intro cs
  induction cs with
  | nil => intro s _; rfl
  | cons c cs ih =>
    intro s h
    rw [List.foldl_cons, ih (applyTransCall s c) (fun x hx => h x (List.mem_cons_of_mem c hx))]
    have hc := h c (List.mem_cons_self c cs)
    unfold applyTransCall
    rw [if_neg (fun heq => hc ⟨(congrArg Prod.fst heq).symm, (congrArg Prod.snd heq).symm⟩)]

theorem transStore_lookup :
    ∀ (cs : List TransCall) (c0 : TransCall) (s : Nat × Nat → ℚ), c0 ∈ cs →
      (∀ c ∈ cs, c.fromType = c0.fromType → c.toType = c0.toType → c.prob = c0.prob) →
      cs.foldl applyTransCall s (c0.fromType, c0.toType) = c0.prob := by
  intro cs
  induction cs with
  | nil => intro c0 s h _; exact absurd h (List.not_mem_nil c0)
  | cons c cs ih =>
    intro c0 s hmem huniq
    rw [List.foldl_cons]
    rcases List.mem_cons.mp hmem with rfl | hmem'
    · by_cases hex : ∃ c' ∈ cs, c'.fromType = c0.fromType ∧ c'.toType = c0.toType
      · obtain ⟨c', hc', hf, ht⟩ := hex
        have hp : c'.prob = c0.prob := huniq c' (List.mem_cons_of_mem c0 hc') hf ht
        have hrec := ih c' (applyTransCall s c0) hc' (fun c'' h'' hf'' ht'' => by
          rw [hp]
          exact huniq c'' (List.mem_cons_of_mem c0 h'') (hf''.trans hf) (ht''.trans ht))
        rw [← hf, ← ht, ← hp]
        exact hrec
      · push_neg at hex
        rw [transStore_skip c0.fromType c0.toType cs (applyTransCall s c0)
            (fun c' hc' hand => hex c' hc' hand.1 hand.2)]
        unfold applyTransCall
        rw [if_pos rfl]
    · exact ih c0 (applyTransCall s c) hmem'
        (fun c'' h'' => huniq c'' (List.mem_cons_of_mem c h''))

/-- C7: SetTransitionProbabilitiesFromFile reads the file as a fixed 11x11
comma-separated grid with no header row: it makes exactly 121
SetTransitionProbability calls, the call at position i*11 + j carrying
fromType 38 + i, toType 38 + j and the value parsed at grid position
(i, j); consequently the store produced by the calls holds exactly the
grid values, which direct-probability queries reproduce. -/
theorem transitionProbabilities_grid (env : ParseEnv) (file : InFile) :
    (SetTransitionProbabilitiesFromFile env file).length = 121 ∧
    (∀ i j : Nat, i < 11 → j < 11 →
      (SetTransitionProbabilitiesFromFile env file)[i * 11 + j]? =
        some ⟨38 + i, j + 38, env.atof (transToken (file.lines.getD i []) j)⟩ ∧
      GetTransitionProbability
          (transStoreOfCalls (SetTransitionProbabilitiesFromFile env file)) (38 + i) (j + 38) =
        env.atof (transToken (file.lines.getD i []) j)) := by
  constructor
  · show (transReadAux env 38 11 file.lines).length = 121
    rw [transReadAux_length]
  · intro i j hi hj
    have hg : (SetTransitionProbabilitiesFromFile env file)[i * 11 + j]? =
        some ⟨38 + i, j + 38, env.atof (transToken (file.lines.getD i []) j)⟩ :=
      transReadAux_getElem env 11 38 file.lines i j hi hj
    refine ⟨hg, ?_⟩
    have hmem : (⟨38 + i, j + 38, env.atof (transToken (file.lines.getD i []) j)⟩ : TransCall) ∈
        SetTransitionProbabilitiesFromFile env file := List.getElem?_mem hg
    have huniq : ∀ c ∈ SetTransitionProbabilitiesFromFile env file,
        c.fromType = 38 + i → c.toType = j + 38 →
        c.prob = env.atof (transToken (file.lines.getD i []) j) := by
      intro c hc hf ht
      obtain ⟨i', j', _, _, rfl⟩ := transReadAux_mem env 11 38 file.lines c hc
      have hf' : 38 + i' = 38 + i := hf
      have ht' : j' + 38 = j + 38 := ht
      have hii : i' = i := by omega
      have hjj : j' = j := by omega
      rw [hii, hjj]
    exact transStore_lookup (SetTransitionProbabilitiesFromFile env file)
      ⟨38 + i, j + 38, env.atof (transToken (file.lines.getD i []) j)⟩
      (fun _ => 0) hmem huniq

theorem transitionProbabilities_grid_witness :
    (SetTransitionProbabilitiesFromFile envW ⟨[], true⟩).length = 121 ∧
    ((SetTransitionProbabilitiesFromFile envW ⟨[], true⟩)[1]? =
        some ⟨38, 39, envW.atof (transToken [] 1)⟩ ∧
      GetTransitionProbability
          (transStoreOfCalls (SetTransitionProbabilitiesFromFile envW ⟨[], true⟩)) 38 39 =
        envW.atof (transToken [] 1)) :=
  ⟨(transitionProbabilities_grid envW ⟨[], true⟩).1,
   (transitionProbabilities_grid envW ⟨[], true⟩).2 0 1 (by decide) (by decide)⟩

theorem getD_set_self (l : List (List Nat)) (i : Nat) (v d : List Nat) (h : i < l.length) :
    (l.set i v).getD i d = v := by
  rw [List.getD_eq_getElem?_getD, List.getElem?_set_self h]
  rfl

theorem getD_set_ne (l : List (List Nat)) (i j : Nat) (v d : List Nat) (h : i ≠ j) :
    (l.set i v).getD j d = l.getD j d := by
  rw [List.getD_eq_getElem?_getD, List.getElem?_set_ne h, ← List.getD_eq_getElem?_getD]

theorem getDNat_set_self (l : List Nat) (i : Nat) (v d : Nat) (h : i < l.length) :
    (l.set i v).getD i d = v := by
  rw [List.getD_eq_getElem?_getD, List.getElem?_set_self h]
  rfl

theorem getDNat_set_ne (l : List Nat) (i j : Nat) (v d : Nat) (h : i ≠ j) :
    (l.set i v).getD j d = l.getD j d := by
  rw [List.getD_eq_getElem?_getD, List.getElem?_set_ne h, ← List.getD_eq_getElem?_getD]

theorem goodGrid_init : goodGrid confusionMatrixInit := by
  constructor
  · rfl
  · intro idx h
    interval_cases idx <;> rfl

theorem bumpCell_goodGrid (m : List (List Nat)) (r c : Nat) (h : goodGrid m) :
    goodGrid (bumpCell m r c) := by
  obtain ⟨hlen, hrow⟩ := h
  constructor
  · simp [bumpCell, hlen]
  · intro idx hidx
    unfold bumpCell
    by_cases hr : r = idx
    · subst hr
      rw [List.getD_eq_getElem?_getD, List.getElem?_set_self (by omega)]
      simp only [Option.getD_some, List.length_set]
      exact hrow r hidx
    · rw [List.getD_eq_getElem?_getD, List.getElem?_set_ne hr, ← List.getD_eq_getElem?_getD]
      exact hrow idx hidx

theorem bumpCell_cell (m : List (List Nat)) (r c a b : Nat) (h : goodGrid m)
    (hr : r < 10) (hc : c < 10) (ha : a < 10) (hb : b < 10) :
    ((bumpCell m r c).getD a []).getD b 0 =
      ((m.getD a []).getD b 0) + (if r = a ∧ c = b then 1 else 0) := by
  obtain ⟨hlen, hrow⟩ := h
  unfold bumpCell
  by_cases hra : r = a
  · subst hra
    rw [getD_set_self m r _ [] (by omega)]
    by_cases hcb : c = b
    · subst hcb
      rw [getDNat_set_self _ c _ 0 (by rw [hrow r hr]; exact hc), if_pos ⟨rfl, rfl⟩]
    · rw [getDNat_set_ne _ c b _ 0 hcb, if_neg (fun hand => hcb hand.2)]
      omega
  · rw [getD_set_ne m r a _ [] hra, if_neg (fun hand => hra hand.1)]
    omega

theorem confusionFold_cell (a b : Nat) (ha : a < 10) (hb : b < 10) :
    ∀ (pairs : List (Nat × Nat)) (m : List (List Nat)), goodGrid m →
      (∀ p ∈ pairs, 38 ≤ p.1 ∧ p.1 < 48 ∧ 38 ≤ p.2 ∧ p.2 < 48) →
      (((pairs.foldl (fun m p => bumpCell m (p.1 - 38) (p.2 - 38)) m).getD a []).getD b 0) =
        ((m.getD a []).getD b 0) +
          pairs.countP (fun p => p.1 == 38 + a && p.2 == 38 + b) := by
  intro pairs
  induction pairs with
  | nil => intro m _ _; simp
  | cons p ps ih =>
    intro m hm hp
    have hpr := hp p (List.mem_cons_self p ps)
    rw [List.foldl_cons,
        ih (bumpCell m (p.1 - 38) (p.2 - 38)) (bumpCell_goodGrid m _ _ hm)
          (fun q hq => hp q (List.mem_cons_of_mem p hq)),
        List.countP_cons,
        bumpCell_cell m (p.1 - 38) (p.2 - 38) a b hm (by omega) (by omega) ha hb]
    by_cases hme : p.1 - 38 = a ∧ p.2 - 38 = b
    · have hpred : (p.1 == 38 + a && p.2 == 38 + b) = true := by
        simp only [Bool.and_eq_true, beq_iff_eq]
        omega
      simp only [hpred, if_pos hme, eq_self_iff_true, if_true]
      omega
    · have hpred : (p.1 == 38 + a && p.2 == 38 + b) = false := by
        rw [← Bool.not_eq_true]
        simp only [Bool.and_eq_true, beq_iff_eq]
        omega
      simp only [hpred, if_neg hme, Bool.false_eq_true, if_false]
      omega

/-- C9 counterexample: the confusion matrix built and printed by the
diagnostic branch has 10 rows of 10 columns (the construction and print
loops run their indices from 0 to 9, covering generation labels 0 through
9 only), not the 11 x 11 matrix the claim describes. -/
theorem printedConfusion_is_ten_by_ten :
    (printedConfusion [(38, 39)]).length = 10 ∧
    (printedConfusion [(38, 39)]).length ≠ 11 ∧
    (∀ row ∈ printedConfusion [(38, 39)], row.length = 10) := by decide

/-- C9 amended: with the diagnostic mode enabled the program prints a
10 x 10 confusion matrix as text, one row and one column for each
generation label 0 through 9, and — provided every particle carries
generation labels 0..9 on both sides, the out-of-range labels 10 and
undefined indexing the C++ vector out of bounds — cell (a, b) counts the
particles with input label code 38 + a and output label code 38 + b. -/
theorem printedConfusion_counts (pairs : List (Nat × Nat))
    (hp : ∀ p ∈ pairs, 38 ≤ p.1 ∧ p.1 < 48 ∧ 38 ≤ p.2 ∧ p.2 < 48) :
    (printedConfusion pairs).length = 10 ∧
    (∀ row ∈ printedConfusion pairs, row.length = 10) ∧
    (∀ a b : Nat, a < 10 → b < 10 →
      ((printedConfusion pairs).getD a []).getD b 0 =
        pairs.countP (fun p => p.1 == 38 + a && p.2 == 38 + b)) := by
  refine ⟨by simp [printedConfusion], ?_, ?_⟩
  · intro row hrow
    simp only [printedConfusion, List.mem_map] at hrow
    obtain ⟨i, _, rfl⟩ := hrow
    simp
  · intro a b ha hb
    have h1 : (printedConfusion pairs).getD a [] =
        (List.range 10).map (fun j => ((confusionMatrix pairs).getD a []).getD j 0) := by
      rw [printedConfusion, List.getD_eq_getElem?_getD, List.getElem?_map,
          List.getElem?_range ha]
      rfl
    rw [h1, List.getD_eq_getElem?_getD, List.getElem?_map, List.getElem?_range hb]
    show ((confusionMatrix pairs).getD a []).getD b 0 = _
    have hcell := confusionFold_cell a b ha hb pairs confusionMatrixInit goodGrid_init hp
    have hinit : ((confusionMatrixInit.getD a []).getD b 0) = 0 := by
      interval_cases a <;> interval_cases b <;> rfl
    calc ((confusionMatrix pairs).getD a []).getD b 0
        = ((confusionMatrixInit.getD a []).getD b 0) +
            pairs.countP (fun p => p.1 == 38 + a && p.2 == 38 + b) := hcell
      _ = pairs.countP (fun p => p.1 == 38 + a && p.2 == 38 + b) := by
          rw [hinit, Nat.zero_add]

theorem printedConfusion_counts_witness :
    (printedConfusion [(38, 39)]).length = 10 ∧
    (∀ row ∈ printedConfusion [(38, 39)], row.length = 10) ∧
    (∀ a b : Nat, a < 10 → b < 10 →
      ((printedConfusion [(38, 39)]).getD a []).getD b 0 =
        [(38, 39)].countP (fun p => p.1 == 38 + a && p.2 == 38 + b)) :=
  printedConfusion_counts [(38, 39)] (by decide)
